import Mathlib

/-
Verification of the reconciliation engine of the POLMARKET-trade-alert
repository (source file POL1.py, the composite-key variant).

Modelling conventions:
* Python floats are modelled as rationals (ℚ).
* A Python dict is modelled as an insertion-ordered association list
  (`Snapshot`): assignment to an existing key replaces the value in place,
  assignment to a fresh key appends at the end, and iteration follows the
  list order — exactly the semantics of a CPython dict.
* A raw fetched position (a JSON object) is a record of optional fields;
  `p["conditionId"]` / `p["size"]` raising `KeyError` on a missing field is
  modelled by `Except.error`, while `p.get(field, default)` accesses are
  modelled by `Option.getD`.
* The alert strings built by the Python code are modelled by an inductive
  `Alert` datatype carrying exactly the data interpolated into each string.
* The module-level configuration constant `CHANGE_THRESHOLD` is passed as an
  explicit `threshold` parameter (its configured default, 0.01, is
  `CHANGE_THRESHOLD` below), matching `is_significant_change`'s
  `threshold=CHANGE_THRESHOLD` default argument.
-/

/-- A raw position object as fetched from the API (POL1.py lines 101-116).
Every field is optional: `conditionId` and `size` are accessed with `p[...]`
(raising on absence), the rest with `p.get(...)`. -/
structure RawPosition where
  conditionId : Option String
  outcome : Option String
  size : Option ℚ
  title : Option String
  avgPrice : Option ℚ
  curPrice : Option ℚ
  percentPnl : Option ℚ
  deriving DecidableEq, Repr

/-- The persisted snapshot entry written at POL1.py lines 118-123:
`{"size": size, "avgPrice": avg_price, "title": title, "outcome": outcome}`. -/
structure PositionRecord where
  size : ℚ
  avgPrice : Option ℚ
  title : String
  outcome : String
  deriving DecidableEq, Repr

/-- A state dict: insertion-ordered mapping from position key to record. -/
abbrev Snapshot := List (String × PositionRecord)

/-- Dict read `state.get(key)` / `state[key]`: first entry with the key. -/
def Snapshot.lookup : Snapshot → String → Option PositionRecord
  | [], _ => none
  | (k', r) :: rest, k => if k' = k then some r else Snapshot.lookup rest k

/-- Dict write `state[key] = rec`: replace in place if the key is present,
otherwise append at the end (CPython dict assignment semantics). -/
def Snapshot.insert : Snapshot → String → PositionRecord → Snapshot
  | [], k, r => [(k, r)]
  | (k', r') :: rest, k, r =>
      if k' = k then (k, r) :: rest else (k', r') :: Snapshot.insert rest k r

/-- One alert message, by constructor the four message kinds of POL1.py
(【新开仓】/【加仓】/【减仓】/【清仓】), each carrying exactly the data
interpolated into the corresponding f-string. -/
inductive Alert where
  | opened (title outcome : String) (size : ℚ) (avgPrice curPrice : Option ℚ)
  | increased (title outcome : String) (oldSize newSize : ℚ)
      (avgPrice percentPnl : Option ℚ)
  | decreased (title outcome : String) (oldSize newSize : ℚ)
      (curPrice percentPnl : Option ℚ)
  | closed (title outcome : String) (oldSize : ℚ)
  deriving DecidableEq, Repr

/-- `CHANGE_THRESHOLD = 0.01` (POL1.py line 19). -/
def CHANGE_THRESHOLD : ℚ := 1 / 100

/-- `is_significant_change` (POL1.py lines 66-90): significant iff the
absolute difference reaches the threshold. -/
def is_significant_change (old_size new_size threshold : ℚ) : Bool :=
  if |new_size - old_size| < threshold then false else true

/-- The body of the first loop of `detect_position_changes`
(POL1.py lines 101-166) for a single fetched position: returns the alerts
this position appends (at most one) and the `(key, record)` pair it stores
into `new_state` (none when `size == 0` skips the position), or the
`KeyError` raised on a missing required field. -/
def processPosition (threshold : ℚ) (old_state : Snapshot) (p : RawPosition) :
    Except String (List Alert × Option (String × PositionRecord)) :=
  match p.conditionId with
  | none => .error "KeyError: conditionId"
  | some cid =>
    let outcome := p.outcome.getD ""
    match p.size with
    | none => .error "KeyError: size"
    | some size =>
      let key := cid ++ ":" ++ outcome
      if size = 0 then .ok ([], none)
      else
        let title := p.title.getD ""
        let record : PositionRecord :=
          { size := size, avgPrice := p.avgPrice, title := title,
            outcome := outcome }
        let alerts : List Alert :=
          match old_state.lookup key with
          | none =>
              if 0 < size then
                [.opened title outcome size p.avgPrice p.curPrice]
              else []
          | some old =>
              let old_size := old.size
              if is_significant_change old_size size threshold = false then []
              else if old_size < size then
                [.increased title outcome old_size size p.avgPrice p.percentPnl]
              else if 0 < size ∧ size < old_size then
                [.decreased title outcome old_size size p.curPrice p.percentPnl]
              else if size = 0 ∧ 0 < old_size then
                [.closed title outcome old_size]
              else []
        .ok (alerts, some (key, record))

/-- Store the entry produced by one loop iteration (`new_state[key] = ...`,
POL1.py line 118), a no-op for a skipped zero-size position. -/
def applyEntry (new_state : Snapshot) :
    Option (String × PositionRecord) → Snapshot
  | none => new_state
  | some (k, r) => new_state.insert k r

/-- The first loop of `detect_position_changes` (POL1.py lines 101-166):
fold `processPosition` over the fetched list, accumulating alerts in order
and populating `new_state`; a raised `KeyError` aborts the whole call. -/
def detectLoop (threshold : ℚ) (old_state : Snapshot) :
    List RawPosition → Snapshot → Except String (List Alert × Snapshot)
  | [], new_state => .ok ([], new_state)
  | p :: rest, new_state =>
    (processPosition threshold old_state p).bind fun step =>
      (detectLoop threshold old_state rest (applyEntry new_state step.2)).map
        fun r => (step.1 ++ r.1, r.2)

/-- The second loop of `detect_position_changes` (POL1.py lines 168-177):
for every old entry whose key is absent from `new_state` and whose stored
size is positive, emit a 【清仓】 (Closed) alert from the old record. -/
def closedPass (old_state new_state : Snapshot) : List Alert :=
  old_state.filterMap fun e =>
    if new_state.lookup e.1 = none then
      if 0 < e.2.size then some (.closed e.2.title e.2.outcome e.2.size)
      else none
    else none

/-- `detect_position_changes` (POL1.py lines 94-179): both passes, returning
the alert list in generation order and the new snapshot. -/
def detect_position_changes (threshold : ℚ) (old_state : Snapshot)
    (new_positions : List RawPosition) :
    Except String (List Alert × Snapshot) :=
  match detectLoop threshold old_state new_positions [] with
  | .error e => .error e
  | .ok (alerts, new_state) =>
      .ok (alerts ++ closedPass old_state new_state, new_state)

/-- The composite key `f"{cid}:{outcome}"` a fetched position is tracked
under (POL1.py line 107), when its `conditionId` is present. -/
def keyOf (p : RawPosition) : Option String :=
  p.conditionId.map fun cid => cid ++ ":" ++ p.outcome.getD ""

/-- The `(key, record)` pair a well-formed fetched position stores into the
new snapshot (POL1.py lines 107, 118-123). -/
def recordOf (p : RawPosition) : Option (String × PositionRecord) :=
  match p.conditionId, p.size with
  | some cid, some size =>
      some (cid ++ ":" ++ p.outcome.getD "",
        { size := size, avgPrice := p.avgPrice, title := p.title.getD "",
          outcome := p.outcome.getD "" })
  | _, _ => none

/-- Recogniser for Closed (【清仓】) alerts. -/
def Alert.isClosed : Alert → Bool
  | .closed _ _ _ => true
  | _ => false

-- Sanity example: open one position from an empty snapshot.
example :
    detect_position_changes CHANGE_THRESHOLD []
      [⟨some "c", some "Yes", some 5, some "T", some (1/2), some (3/5), none⟩]
      = .ok ([.opened "T" "Yes" 5 (some (1/2)) (some (3/5))],
          [("c:Yes", ⟨5, some (1/2), "T", "Yes"⟩)]) := by
  rfl

/-! ### Basic lemmas about snapshots (association lists) -/

theorem Snapshot.lookup_insert_self (s : Snapshot) (k : String)
    (r : PositionRecord) : (s.insert k r).lookup k = some r := by
  induction s with
  | nil => simp [Snapshot.insert, Snapshot.lookup]
  | cons e rest ih =>
      obtain ⟨k', r'⟩ := e
      by_cases h : k' = k <;> simp [Snapshot.insert, Snapshot.lookup, h, ih]

theorem Snapshot.lookup_insert_ne (s : Snapshot) {k k' : String}
    (r : PositionRecord) (h : k' ≠ k) :
    (s.insert k r).lookup k' = s.lookup k' := by
  have hne : k ≠ k' := Ne.symm h
  induction s with
  | nil => simp [Snapshot.insert, Snapshot.lookup, hne]
  | cons e rest ih =>
      obtain ⟨k₀, r₀⟩ := e
      by_cases h₀ : k₀ = k
      · subst h₀
        simp [Snapshot.insert, Snapshot.lookup, hne]
      · by_cases h₁ : k₀ = k'
        · simp [Snapshot.insert, Snapshot.lookup, h₀, h₁, h]
        · simp [Snapshot.insert, Snapshot.lookup, h₀, h₁, ih]

theorem Snapshot.lookup_eq_none_iff (s : Snapshot) (k : String) :
    s.lookup k = none ↔ ∀ e ∈ s, e.1 ≠ k := by
  induction s with
  | nil => simp [Snapshot.lookup]
  | cons e rest ih =>
      obtain ⟨k', r'⟩ := e
      by_cases h : k' = k <;> simp [Snapshot.lookup, h, ih]

theorem Snapshot.lookup_isSome_of_mem {s : Snapshot} {e : String × PositionRecord}
    (he : e ∈ s) : s.lookup e.1 ≠ none := by
  intro hnone
  exact (Snapshot.lookup_eq_none_iff s e.1).mp hnone e he rfl

/-! ### Characterisations of the per-position step -/

/-- A position with present `conditionId` and `size` never raises, and its
snapshot entry (when any) is `recordOf`. -/
theorem processPosition_wf (threshold : ℚ) (old_state : Snapshot)
    {p : RawPosition} {cid : String} {size : ℚ}
    (hcid : p.conditionId = some cid) (hsize : p.size = some size) :
    (size = 0 ∧ processPosition threshold old_state p = .ok ([], none)) ∨
    (size ≠ 0 ∧ ∃ a, processPosition threshold old_state p =
      .ok (a, some (cid ++ ":" ++ p.outcome.getD "",
        { size := size, avgPrice := p.avgPrice, title := p.title.getD "",
          outcome := p.outcome.getD "" }))) := by
  by_cases h0 : size = 0
  · left
    refine ⟨h0, ?_⟩
    simp [processPosition, hcid, hsize, h0]
  · right
    refine ⟨h0, ?_⟩
    simp only [processPosition, hcid, hsize, if_neg h0]
    exact ⟨_, rfl⟩

/-- A position missing `conditionId` or `size` raises `KeyError`. -/
theorem processPosition_raises (threshold : ℚ) (old_state : Snapshot)
    {p : RawPosition} (h : p.conditionId = none ∨ p.size = none) :
    ∃ msg, processPosition threshold old_state p = .error msg := by
  rcases h with h | h
  · exact ⟨"KeyError: conditionId", by simp [processPosition, h]⟩
  · cases hcid : p.conditionId with
    | none => exact ⟨"KeyError: conditionId", by simp [processPosition, hcid]⟩
    | some cid => exact ⟨"KeyError: size", by simp [processPosition, hcid, h]⟩

/-- Whatever the step returns, the stored entry has the position's composite
key and a nonzero size equal to the fetched size. -/
theorem processPosition_entry (threshold : ℚ) (old_state : Snapshot)
    {p : RawPosition} {a : List Alert} {k : String} {r : PositionRecord}
    (h : processPosition threshold old_state p = .ok (a, some (k, r))) :
    keyOf p = some k ∧ p.size = some r.size ∧ r.size ≠ 0 ∧
      recordOf p = some (k, r) := by
  cases hcid : p.conditionId with
  | none => simp [processPosition, hcid] at h
  | some cid =>
      cases hsize : p.size with
      | none => simp [processPosition, hcid, hsize] at h
      | some size =>
          by_cases h0 : size = 0
          · simp [processPosition, hcid, hsize, h0] at h
          · simp only [processPosition, hcid, hsize, if_neg h0,
              Except.ok.injEq, Prod.mk.injEq, Option.some.injEq] at h
            obtain ⟨-, hk, hr⟩ := h
            subst hk
            subst hr
            exact ⟨by simp [keyOf, hcid], by simp [hsize], h0,
              by simp [recordOf, hcid, hsize]⟩

/-- The first pass never emits a Closed alert: the `size == 0` skip fires
before the dead `size == 0 and old_size > 0` branch could. -/
theorem processPosition_not_closed (threshold : ℚ) (old_state : Snapshot)
    {p : RawPosition} {a : List Alert} {entry : Option (String × PositionRecord)}
    (h : processPosition threshold old_state p = .ok (a, entry)) :
    ∀ x ∈ a, x.isClosed = false := by
  intro x hx
  cases hcid : p.conditionId with
  | none => simp [processPosition, hcid] at h
  | some cid =>
      cases hsize : p.size with
      | none => simp [processPosition, hcid, hsize] at h
      | some size =>
          by_cases h0 : size = 0
          · simp only [processPosition, hcid, hsize, if_pos h0,
              Except.ok.injEq, Prod.mk.injEq] at h
            obtain ⟨ha, -⟩ := h
            subst ha; cases hx
          · simp only [processPosition, hcid, hsize, if_neg h0,
              Except.ok.injEq, Prod.mk.injEq] at h
            obtain ⟨ha, -⟩ := h
            subst ha
            split at hx
            · split at hx
              · simp only [List.mem_singleton] at hx
                subst hx; rfl
              · cases hx
            · split at hx
              · cases hx
              · split at hx
                · simp only [List.mem_singleton] at hx
                  subst hx; rfl
                · split at hx
                  · simp only [List.mem_singleton] at hx
                    subst hx; rfl
                  · split at hx
                    · rename_i hc
                      exact absurd hc.1 h0
                    · cases hx

/-! ### Lemmas about the first pass -/

/-- A list of well-formed positions never makes the loop raise. -/
theorem detectLoop_ok_of_wf (threshold : ℚ) (old_state : Snapshot)
    (ps : List RawPosition) (st : Snapshot)
    (hwf : ∀ p ∈ ps, p.conditionId.isSome ∧ p.size.isSome) :
    ∃ res, detectLoop threshold old_state ps st = .ok res := by
  induction ps generalizing st with
  | nil => exact ⟨([], st), rfl⟩
  | cons q rest ih =>
      obtain ⟨hcid, hsize⟩ := hwf q (by simp)
      obtain ⟨cid, hcid⟩ := Option.isSome_iff_exists.mp hcid
      obtain ⟨size, hsize⟩ := Option.isSome_iff_exists.mp hsize
      rcases processPosition_wf threshold old_state hcid hsize with
        ⟨-, hq⟩ | ⟨-, a, hq⟩
      · obtain ⟨⟨as, ns⟩, hrest⟩ := ih st (fun p hp => hwf p (by simp [hp]))
        exact ⟨(as, ns),
          by simp [detectLoop, hq, hrest, Except.bind, Except.map, applyEntry]⟩
      · obtain ⟨⟨as, ns⟩, hrest⟩ :=
          ih (st.insert (cid ++ ":" ++ q.outcome.getD "")
            { size := size, avgPrice := q.avgPrice, title := q.title.getD "",
              outcome := q.outcome.getD "" })
            (fun p hp => hwf p (by simp [hp]))
        exact ⟨(a ++ as, ns),
          by simp [detectLoop, hq, hrest, Except.bind, Except.map, applyEntry]⟩

/-- A malformed position anywhere in the list makes the loop raise. -/
theorem detectLoop_error_of_malformed (threshold : ℚ) (old_state : Snapshot)
    (ps : List RawPosition) (st : Snapshot)
    (hbad : ∃ p ∈ ps, p.conditionId = none ∨ p.size = none) :
    ∃ msg, detectLoop threshold old_state ps st = .error msg := by
  induction ps generalizing st with
  | nil => simp at hbad
  | cons q rest ih =>
      obtain ⟨p, hp, hpbad⟩ := hbad
      rcases List.mem_cons.mp hp with rfl | hp
      · obtain ⟨msg, hmsg⟩ := processPosition_raises threshold old_state hpbad
        exact ⟨msg, by simp [detectLoop, hmsg, Except.bind]⟩
      · cases hq : processPosition threshold old_state q with
        | error msg => exact ⟨msg, by simp [detectLoop, hq, Except.bind]⟩
        | ok res =>
            obtain ⟨a, entry⟩ := res
            cases entry with
            | none =>
                obtain ⟨msg, hmsg⟩ := ih st ⟨p, hp, hpbad⟩
                exact ⟨msg, by simp [detectLoop, hq, hmsg, Except.bind,
                  Except.map, applyEntry]⟩
            | some e =>
                obtain ⟨k, r⟩ := e
                obtain ⟨msg, hmsg⟩ := ih (st.insert k r) ⟨p, hp, hpbad⟩
                exact ⟨msg, by simp [detectLoop, hq, hmsg, Except.bind,
                  Except.map, applyEntry]⟩

/-- Inversion of one successful step of the loop. -/
theorem detectLoop_cons_ok (threshold : ℚ) (old_state : Snapshot)
    (q : RawPosition) (rest : List RawPosition) (st : Snapshot)
    (as : List Alert) (ns : Snapshot)
    (h : detectLoop threshold old_state (q :: rest) st = .ok (as, ns)) :
    ∃ a entry as',
      processPosition threshold old_state q = .ok (a, entry) ∧
      detectLoop threshold old_state rest (applyEntry st entry) =
        .ok (as', ns) ∧
      as = a ++ as' := by
  simp only [detectLoop] at h
  cases hq : processPosition threshold old_state q with
  | error msg => rw [hq] at h; exact Except.noConfusion h
  | ok res =>
      obtain ⟨a, entry⟩ := res
      rw [hq] at h
      simp only [Except.bind] at h
      cases hrest : detectLoop threshold old_state rest (applyEntry st entry) with
      | error msg => rw [hrest] at h; exact Except.noConfusion h
      | ok res' =>
          obtain ⟨as', ns'⟩ := res'
          rw [hrest] at h
          simp only [Except.map, Except.ok.injEq, Prod.mk.injEq] at h
          exact ⟨a, entry, as', rfl, by rw [hrest, h.2], h.1.symm⟩

/-- The alerts of the first pass are the concatenation, in fetch order, of
each position's own contribution. -/
theorem detectLoop_alerts_concat (threshold : ℚ) (old_state : Snapshot)
    (ps : List RawPosition) (st : Snapshot) (as : List Alert) (ns : Snapshot)
    (h : detectLoop threshold old_state ps st = .ok (as, ns)) :
    ∃ cs, ps.mapM (fun p => (processPosition threshold old_state p).map
        Prod.fst) = .ok cs ∧ as = cs.flatten := by
  induction ps generalizing st as with
  | nil =>
      simp only [detectLoop, Except.ok.injEq, Prod.mk.injEq] at h
      exact ⟨[], rfl, by simp [← h.1]⟩
  | cons q rest ih =>
      obtain ⟨a, entry, as', hq, hrest, has⟩ :=
        detectLoop_cons_ok threshold old_state q rest st as ns h
      obtain ⟨cs, hcs, hflat⟩ := ih _ _ hrest
      refine ⟨a :: cs, ?_, ?_⟩
      · rw [List.mapM_cons, hq, hcs]
        rfl
      · simp [has, hflat]

/-- Keys never stored with a nonzero size stay absent from the running
snapshot. -/
theorem detectLoop_lookup_none (threshold : ℚ) (old_state : Snapshot)
    (ps : List RawPosition) (st : Snapshot) (as : List Alert) (ns : Snapshot)
    (k : String)
    (h : detectLoop threshold old_state ps st = .ok (as, ns))
    (hst : st.lookup k = none)
    (hzero : ∀ q ∈ ps, keyOf q = some k → q.size = some 0) :
    ns.lookup k = none := by
  induction ps generalizing st as with
  | nil =>
      simp only [detectLoop, Except.ok.injEq, Prod.mk.injEq] at h
      rw [← h.2]; exact hst
  | cons q rest ih =>
      obtain ⟨a, entry, as', hq, hrest, -⟩ :=
        detectLoop_cons_ok threshold old_state q rest st as ns h
      cases entry with
      | none =>
          exact ih _ _ hrest hst (fun q' hq' => hzero q' (by simp [hq']))
      | some e =>
          obtain ⟨k', r⟩ := e
          obtain ⟨hkey, hsz, hnz, -⟩ :=
            processPosition_entry threshold old_state hq
          have hk' : k' ≠ k := by
            intro hkk
            subst hkk
            have := hzero q (by simp) hkey
            rw [hsz] at this
            exact hnz (by injection this)
          refine ih _ _ hrest ?_ (fun q' hq' => hzero q' (by simp [hq']))
          show (st.insert k' r).lookup k = none
          rw [Snapshot.lookup_insert_ne st r (Ne.symm hk')]
          exact hst

/-- Keys never fetched keep their running-snapshot binding. -/
theorem detectLoop_lookup_absent (threshold : ℚ) (old_state : Snapshot)
    (ps : List RawPosition) (st : Snapshot) (as : List Alert) (ns : Snapshot)
    (k : String)
    (h : detectLoop threshold old_state ps st = .ok (as, ns))
    (habs : ∀ q ∈ ps, keyOf q ≠ some k) :
    ns.lookup k = st.lookup k := by
  induction ps generalizing st as with
  | nil =>
      simp only [detectLoop, Except.ok.injEq, Prod.mk.injEq] at h
      rw [← h.2]
  | cons q rest ih =>
      obtain ⟨a, entry, as', hq, hrest, -⟩ :=
        detectLoop_cons_ok threshold old_state q rest st as ns h
      cases entry with
      | none =>
          exact ih _ _ hrest (fun q' hq' => habs q' (by simp [hq']))
      | some e =>
          obtain ⟨k', r⟩ := e
          obtain ⟨hkey, -, -, -⟩ :=
            processPosition_entry threshold old_state hq
          have hk' : k ≠ k' := by
            intro hkk
            exact habs q (by simp) (hkk ▸ hkey)
          rw [ih _ _ hrest (fun q' hq' => habs q' (by simp [hq']))]
          show (st.insert k' r).lookup k = st.lookup k
          exact Snapshot.lookup_insert_ne st r hk'

/-- The final snapshot binds a fetched position's key to its record when no
other fetched position shares that key. -/
theorem detectLoop_lookup_unique (threshold : ℚ) (old_state : Snapshot)
    (ps : List RawPosition) (st : Snapshot) (as : List Alert) (ns : Snapshot)
    (p : RawPosition) (a : List Alert) (k : String) (r : PositionRecord)
    (h : detectLoop threshold old_state ps st = .ok (as, ns))
    (hmem : p ∈ ps)
    (hp : processPosition threshold old_state p = .ok (a, some (k, r)))
    (huniq : ∀ q ∈ ps, keyOf q = some k → q = p) :
    ns.lookup k = some r := by
  induction ps generalizing st as with
  | nil => cases hmem
  | cons q rest ih =>
      obtain ⟨aq, entry, as', hq, hrest, -⟩ :=
        detectLoop_cons_ok threshold old_state q rest st as ns h
      by_cases hpr : p ∈ rest
      · exact ih _ _ hrest hpr (fun q' hq' => huniq q' (by simp [hq']))
      · have hpq : q = p := by
          rcases List.mem_cons.mp hmem with h' | h'
          · exact h'.symm
          · exact absurd h' hpr
        subst hpq
        rw [hp] at hq
        simp only [Except.ok.injEq, Prod.mk.injEq] at hq
        obtain ⟨-, hentry⟩ := hq
        subst hentry
        have habs : ∀ q' ∈ rest, keyOf q' ≠ some k := by
          intro q' hq' hkey
          exact hpr ((huniq q' (by simp [hq']) hkey) ▸ hq')
        rw [detectLoop_lookup_absent threshold old_state rest _ _ _ k
          hrest habs]
        exact Snapshot.lookup_insert_self st k r

/-! ### Lemmas about the second pass -/

theorem closedPass_all_closed (old_state new_state : Snapshot) :
    ∀ x ∈ closedPass old_state new_state, x.isClosed = true := by
  intro x hx
  obtain ⟨e, -, he⟩ := List.mem_filterMap.mp hx
  by_cases h1 : new_state.lookup e.1 = none
  · by_cases h2 : 0 < e.2.size
    · simp only [if_pos h1, if_pos h2, Option.some.injEq] at he
      rw [← he]; rfl
    · simp [h1, h2] at he
  · simp [h1] at he

theorem mem_closedPass {old_state new_state : Snapshot} {k : String}
    {r : PositionRecord} (hmem : (k, r) ∈ old_state)
    (habs : new_state.lookup k = none) (hpos : 0 < r.size) :
    Alert.closed r.title r.outcome r.size ∈ closedPass old_state new_state :=
  List.mem_filterMap.mpr ⟨(k, r), hmem, by simp [habs, hpos]⟩

theorem closedPass_length (old_state new_state : Snapshot) :
    (closedPass old_state new_state).length =
      old_state.countP fun e =>
        decide (new_state.lookup e.1 = none) && decide (0 < e.2.size) := by
  induction old_state with
  | nil => rfl
  | cons e rest ih =>
      by_cases h1 : new_state.lookup e.1 = none
      · by_cases h2 : 0 < e.2.size
        · simp [closedPass, List.filterMap_cons, h1, h2, List.countP_cons,
            closedPass] at ih ⊢
          omega
        · simp [closedPass, List.filterMap_cons, h1, h2, List.countP_cons,
            closedPass] at ih ⊢
          exact ih
      · simp [closedPass, List.filterMap_cons, h1, List.countP_cons,
          closedPass] at ih ⊢
        exact ih

/-! ### Further step characterisations and loop lemmas -/

theorem Snapshot.mem_of_lookup_eq_some {s : Snapshot} {k : String}
    {r : PositionRecord} (h : s.lookup k = some r) : (k, r) ∈ s := by
  induction s with
  | nil => simp [Snapshot.lookup] at h
  | cons e rest ih =>
      obtain ⟨k', r'⟩ := e
      simp only [Snapshot.lookup] at h
      split at h
      · rename_i hk
        injection h with h
        subst h
        subst hk
        simp
      · exact List.mem_cons_of_mem _ (ih h)

theorem Snapshot.mem_insert {s : Snapshot} {k : String} {r : PositionRecord}
    {e : String × PositionRecord} (h : e ∈ s.insert k r) :
    e ∈ s ∨ e = (k, r) := by
  induction s with
  | nil => simpa [Snapshot.insert] using h
  | cons e' rest ih =>
      obtain ⟨k', r'⟩ := e'
      simp only [Snapshot.insert] at h
      split at h
      · rcases List.mem_cons.mp h with h1 | h1
        · exact Or.inr h1
        · exact Or.inl (List.mem_cons_of_mem _ h1)
      · rcases List.mem_cons.mp h with h1 | h1
        · exact Or.inl (by simp [h1])
        · rcases ih h1 with h2 | h2
          · exact Or.inl (List.mem_cons_of_mem _ h2)
          · exact Or.inr h2

/-- Inserting a fresh key appends at the end. -/
theorem Snapshot.insert_eq_append {s : Snapshot} {k : String}
    (r : PositionRecord) :
    s.lookup k = none → s.insert k r = s ++ [(k, r)] := by
  induction s with
  | nil => intro h; rfl
  | cons e rest ih =>
      intro h
      obtain ⟨k', r'⟩ := e
      simp only [Snapshot.lookup] at h
      split at h
      · exact Option.noConfusion h
      · rename_i hk
        simp [Snapshot.insert, hk, ih h]

theorem recordOf_inversion {p : RawPosition} {k : String} {r : PositionRecord}
    (h : recordOf p = some (k, r)) :
    ∃ cid, p.conditionId = some cid ∧ p.size = some r.size ∧
      k = cid ++ ":" ++ p.outcome.getD "" ∧
      r = { size := r.size, avgPrice := p.avgPrice,
            title := p.title.getD "", outcome := p.outcome.getD "" } := by
  cases hcid : p.conditionId with
  | none => simp [recordOf, hcid] at h
  | some cid =>
      cases hsize : p.size with
      | none => simp [recordOf, hcid, hsize] at h
      | some size =>
          simp only [recordOf, hcid, hsize, Option.some.injEq,
            Prod.mk.injEq] at h
          obtain ⟨hk, hr⟩ := h
          subst hr
          exact ⟨cid, rfl, by simp [hsize], hk.symm, rfl⟩

/-- A well-formed position with fetched size `0` is skipped entirely. -/
theorem processPosition_zero (threshold : ℚ) (old_state : Snapshot)
    {p : RawPosition} {cid : String}
    (hcid : p.conditionId = some cid) (hsize : p.size = some 0) :
    processPosition threshold old_state p = .ok ([], none) := by
  simp [processPosition, hcid, hsize]

/-- A nonzero-size position matched in the old snapshot whose change is not
significant produces no alert but still stores the fresh record. -/
theorem processPosition_insignificant (threshold : ℚ) (old_state : Snapshot)
    {p : RawPosition} {cid : String} {s : ℚ} {oldRec : PositionRecord}
    (hcid : p.conditionId = some cid) (hsize : p.size = some s) (hs : s ≠ 0)
    (hold : old_state.lookup (cid ++ ":" ++ p.outcome.getD "") = some oldRec)
    (hinsig : is_significant_change oldRec.size s threshold = false) :
    processPosition threshold old_state p =
      .ok ([], some (cid ++ ":" ++ p.outcome.getD "",
        { size := s, avgPrice := p.avgPrice, title := p.title.getD "",
          outcome := p.outcome.getD "" })) := by
  simp [processPosition, hcid, hsize, hs, hold, hinsig]

/-- A positive-size position whose key misses the old snapshot yields exactly
one Opened alert, with no significance filtering, and stores its record. -/
theorem processPosition_opened (threshold : ℚ) (old_state : Snapshot)
    {p : RawPosition} {cid : String} {s : ℚ}
    (hcid : p.conditionId = some cid) (hsize : p.size = some s) (hs : 0 < s)
    (hold : old_state.lookup (cid ++ ":" ++ p.outcome.getD "") = none) :
    processPosition threshold old_state p =
      .ok ([Alert.opened (p.title.getD "") (p.outcome.getD "") s
          p.avgPrice p.curPrice],
        some (cid ++ ":" ++ p.outcome.getD "",
          { size := s, avgPrice := p.avgPrice, title := p.title.getD "",
            outcome := p.outcome.getD "" })) := by
  simp [processPosition, hcid, hsize, hs.ne', hold, hs]

/-- A negative-size position matched against a positive old size falls
through every alert branch even when the change is significant, yet its
record is still stored. -/
theorem processPosition_sign_flip (threshold : ℚ) (old_state : Snapshot)
    {p : RawPosition} {cid : String} {s : ℚ} {oldRec : PositionRecord}
    (hcid : p.conditionId = some cid) (hsize : p.size = some s) (hneg : s < 0)
    (hold : old_state.lookup (cid ++ ":" ++ p.outcome.getD "") = some oldRec)
    (hpos : 0 < oldRec.size)
    (hsig : is_significant_change oldRec.size s threshold = true) :
    processPosition threshold old_state p =
      .ok ([], some (cid ++ ":" ++ p.outcome.getD "",
        { size := s, avgPrice := p.avgPrice, title := p.title.getD "",
          outcome := p.outcome.getD "" })) := by
  have h1 : ¬ oldRec.size < s := not_lt.mpr (hneg.le.trans hpos.le)
  have h2 : ¬ (0 < s ∧ s < oldRec.size) := fun hc => absurd hc.1 (not_lt.mpr hneg.le)
  have h3 : ¬ (s = 0 ∧ 0 < oldRec.size) := fun hc => absurd hc.1 hneg.ne
  simp [processPosition, hcid, hsize, hneg.ne, hold, hsig, h1, h2, h3]

/-- The first pass emits no Closed alert at all. -/
theorem detectLoop_alerts_not_closed (threshold : ℚ) (old_state : Snapshot)
    (ps : List RawPosition) (st : Snapshot) (as : List Alert) (ns : Snapshot)
    (h : detectLoop threshold old_state ps st = .ok (as, ns)) :
    ∀ x ∈ as, x.isClosed = false := by
  induction ps generalizing st as with
  | nil =>
      simp only [detectLoop, Except.ok.injEq, Prod.mk.injEq] at h
      rw [← h.1]
      intro x hx
      cases hx
  | cons q rest ih =>
      obtain ⟨a, entry, as', hq, hrest, has⟩ :=
        detectLoop_cons_ok threshold old_state q rest st as ns h
      subst has
      intro x hx
      rcases List.mem_append.mp hx with hx | hx
      · exact processPosition_not_closed threshold old_state hq x hx
      · exact ih _ _ hrest x hx

/-- Every alert a position contributes appears in the pass's alert list. -/
theorem detectLoop_alert_mem (threshold : ℚ) (old_state : Snapshot)
    (ps : List RawPosition) (st : Snapshot) (as : List Alert) (ns : Snapshot)
    (p : RawPosition) (a : List Alert)
    (entry : Option (String × PositionRecord))
    (h : detectLoop threshold old_state ps st = .ok (as, ns))
    (hmem : p ∈ ps)
    (hp : processPosition threshold old_state p = .ok (a, entry)) :
    ∀ x ∈ a, x ∈ as := by
  induction ps generalizing st as with
  | nil => cases hmem
  | cons q rest ih =>
      obtain ⟨aq, entryq, as', hq, hrest, has⟩ :=
        detectLoop_cons_ok threshold old_state q rest st as ns h
      subst has
      intro x hx
      rcases List.mem_cons.mp hmem with rfl | hpr
      · rw [hp] at hq
        simp only [Except.ok.injEq, Prod.mk.injEq] at hq
        exact List.mem_append.mpr (Or.inl (hq.1 ▸ hx))
      · exact List.mem_append.mpr (Or.inr (ih _ _ hrest hpr x hx))

/-- Every entry of the final running snapshot is either an initial entry or
the record of some fetched position with nonzero size. -/
theorem detectLoop_ns_mem (threshold : ℚ) (old_state : Snapshot)
    (ps : List RawPosition) (st : Snapshot) (as : List Alert) (ns : Snapshot)
    (h : detectLoop threshold old_state ps st = .ok (as, ns)) :
    ∀ e ∈ ns, e ∈ st ∨ ∃ p ∈ ps, recordOf p = some e ∧ e.2.size ≠ 0 := by
  induction ps generalizing st as with
  | nil =>
      simp only [detectLoop, Except.ok.injEq, Prod.mk.injEq] at h
      intro e he
      exact Or.inl (h.2 ▸ he)
  | cons q rest ih =>
      obtain ⟨a, entry, as', hq, hrest, -⟩ :=
        detectLoop_cons_ok threshold old_state q rest st as ns h
      intro e he
      cases entry with
      | none =>
          rcases ih _ _ hrest e he with h' | ⟨p, hp, hrec⟩
          · exact Or.inl h'
          · exact Or.inr ⟨p, List.mem_cons_of_mem _ hp, hrec⟩
      | some kr =>
          obtain ⟨k, r⟩ := kr
          obtain ⟨-, -, hnz, hrec⟩ :=
            processPosition_entry threshold old_state hq
          rcases ih _ _ hrest e he with h' | ⟨p, hp, hprec⟩
          · rcases Snapshot.mem_insert h' with h'' | h''
            · exact Or.inl h''
            · exact Or.inr ⟨q, List.mem_cons_self _ _, by rw [h'', hrec]; exact ⟨rfl, hnz⟩⟩
          · exact Or.inr ⟨p, List.mem_cons_of_mem _ hp, hprec⟩

/-- Inversion of a successful call of the whole function: the alerts are the
first pass's followed by the straggler pass's. -/
theorem detect_position_changes_ok (threshold : ℚ) (old_state : Snapshot)
    (new_positions : List RawPosition) (alerts : List Alert) (ns : Snapshot)
    (h : detect_position_changes threshold old_state new_positions =
      .ok (alerts, ns)) :
    ∃ la, detectLoop threshold old_state new_positions [] = .ok (la, ns) ∧
      alerts = la ++ closedPass old_state ns := by
  unfold detect_position_changes at h
  cases hl : detectLoop threshold old_state new_positions [] with
  | error msg => rw [hl] at h; exact Except.noConfusion h
  | ok res =>
      obtain ⟨la, ns'⟩ := res
      rw [hl] at h
      simp only [Except.ok.injEq, Prod.mk.injEq] at h
      obtain ⟨h1, h2⟩ := h
      subst h2
      exact ⟨la, rfl, h1.symm⟩

/-! ### Claim C3 -/

/-- C3: the significance filter returns false iff the absolute difference
is strictly below the threshold; at the threshold or above it returns
true. -/
theorem significance_filter_boundary (oldSize newSize threshold : ℚ)
    (_ht : 0 ≤ threshold) :
    (is_significant_change oldSize newSize threshold = false ↔
      |newSize - oldSize| < threshold) ∧
    (threshold ≤ |newSize - oldSize| →
      is_significant_change oldSize newSize threshold = true) := by
  unfold is_significant_change
  constructor
  · split <;> simp_all
  · intro h
    split
    · rename_i hlt; exact absurd h (not_le.mpr hlt)
    · rfl

/-- Witness for C3 at `oldSize = 5`, `newSize = 501/100`,
`threshold = 1/100`. -/
theorem significance_filter_boundary_witness :
    (is_significant_change 5 (501/100) (1/100) = false ↔
      |(501/100 : ℚ) - 5| < 1/100) ∧
    ((1/100 : ℚ) ≤ |(501/100 : ℚ) - 5| →
      is_significant_change 5 (501/100) (1/100) = true) :=
  significance_filter_boundary 5 (501/100) (1/100) (by norm_num)

/-! ### Claim C9 -/

/-- C9: a fetched position lacking `size` or `conditionId` makes
`detect_position_changes` raise (abort the cycle); positions missing only
optional fields (title, outcome, avgPrice, curPrice, percentPnl) never
raise. -/
theorem malformed_input_fatal (threshold : ℚ) (old_state : Snapshot)
    (ps : List RawPosition) :
    ((∃ p ∈ ps, p.conditionId = none ∨ p.size = none) →
      ∃ msg, detect_position_changes threshold old_state ps = .error msg) ∧
    ((∀ p ∈ ps, p.conditionId.isSome ∧ p.size.isSome) →
      ∃ res, detect_position_changes threshold old_state ps = .ok res) := by
  constructor
  · intro hbad
    obtain ⟨msg, hmsg⟩ :=
      detectLoop_error_of_malformed threshold old_state ps [] hbad
    exact ⟨msg, by simp [detect_position_changes, hmsg]⟩
  · intro hwf
    obtain ⟨⟨as, ns⟩, hok⟩ := detectLoop_ok_of_wf threshold old_state ps [] hwf
    exact ⟨(as ++ closedPass old_state ns, ns),
      by simp [detect_position_changes, hok]⟩

/-- Witness for C9: a position missing `conditionId` raises; a position with
`conditionId` and `size` but every optional field missing does not. -/
theorem malformed_input_fatal_witness :
    (∃ msg, detect_position_changes CHANGE_THRESHOLD []
      [⟨none, some "Yes", some 1, none, none, none, none⟩] = .error msg) ∧
    (∃ res, detect_position_changes CHANGE_THRESHOLD []
      [⟨some "c", none, some 1, none, none, none, none⟩] = .ok res) :=
  ⟨(malformed_input_fatal CHANGE_THRESHOLD []
      [⟨none, some "Yes", some 1, none, none, none, none⟩]).1
      ⟨⟨none, some "Yes", some 1, none, none, none, none⟩, by simp,
        Or.inl rfl⟩,
   (malformed_input_fatal CHANGE_THRESHOLD []
      [⟨some "c", none, some 1, none, none, none, none⟩]).2
      (by intro p hp; simp only [List.mem_singleton] at hp; subst hp;
          exact ⟨rfl, rfl⟩)⟩

/-! ### Claim C8 -/

/-- C8: the returned alert list is the fetched-position pass's alerts — in
fetch order, each position's own contribution in place — followed by the
Closed alerts of the disappeared-position pass (a filterMap over the old
snapshot in its iteration order); no Closed alert occurs in the first part
and every alert of the second part is a Closed alert. -/
theorem detect_alert_ordering (threshold : ℚ) (old_state : Snapshot)
    (new_positions : List RawPosition) (alerts : List Alert) (ns : Snapshot)
    (h : detect_position_changes threshold old_state new_positions =
      .ok (alerts, ns)) :
    ∃ contribs,
      new_positions.mapM
        (fun p => (processPosition threshold old_state p).map Prod.fst) =
        .ok contribs ∧
      alerts = contribs.flatten ++ closedPass old_state ns ∧
      (∀ x ∈ contribs.flatten, x.isClosed = false) ∧
      (∀ x ∈ closedPass old_state ns, x.isClosed = true) := by
  obtain ⟨la, hl, halerts⟩ := detect_position_changes_ok _ _ _ _ _ h
  obtain ⟨cs, hcs, hflat⟩ := detectLoop_alerts_concat _ _ _ _ _ _ hl
  subst hflat
  exact ⟨cs, hcs, halerts, detectLoop_alerts_not_closed _ _ _ _ _ _ hl,
    closedPass_all_closed _ _⟩

/-- Witness for C8 at a run with one Opened alert (first pass) and one
Closed alert (second pass). -/
theorem detect_alert_ordering_witness :
    ∃ contribs,
      [(⟨some "c", some "Yes", some 5, some "T", none, none, none⟩ :
          RawPosition)].mapM
        (fun p => (processPosition CHANGE_THRESHOLD
          [("d:No", ⟨2, none, "U", "No"⟩)] p).map Prod.fst) = .ok contribs ∧
      [Alert.opened "T" "Yes" 5 none none, Alert.closed "U" "No" 2] =
        contribs.flatten ++ closedPass [("d:No", ⟨2, none, "U", "No"⟩)]
          [("c:Yes", ⟨5, none, "T", "Yes"⟩)] ∧
      (∀ x ∈ contribs.flatten, x.isClosed = false) ∧
      (∀ x ∈ closedPass [("d:No", ⟨2, none, "U", "No"⟩)]
          [("c:Yes", ⟨5, none, "T", "Yes"⟩)], x.isClosed = true) :=
  detect_alert_ordering CHANGE_THRESHOLD [("d:No", ⟨2, none, "U", "No"⟩)]
    [⟨some "c", some "Yes", some 5, some "T", none, none, none⟩]
    [Alert.opened "T" "Yes" 5 none none, Alert.closed "U" "No" 2]
    [("c:Yes", ⟨5, none, "T", "Yes"⟩)] rfl

/-! ### Claim C2 -/

/-- C2: a key stored in the old snapshot with positive size whose fetched
occurrences are all explicit zeros (in particular, a key not fetched at
all) ends up absent from the new snapshot, produces a Closed alert carrying
the old record's title/outcome/size, and the total number of Closed alerts
equals the number of old entries with positive size absent from the new
snapshot — one per vanished position, never two. -/
theorem closed_alert_exactly_once (threshold : ℚ) (old_state : Snapshot)
    (new_positions : List RawPosition) (alerts : List Alert) (ns : Snapshot)
    (k : String) (rec : PositionRecord)
    (h : detect_position_changes threshold old_state new_positions =
      .ok (alerts, ns))
    (hold : old_state.lookup k = some rec)
    (hpos : 0 < rec.size)
    (hvanish : ∀ p ∈ new_positions, keyOf p = some k → p.size = some 0) :
    ns.lookup k = none ∧
    Alert.closed rec.title rec.outcome rec.size ∈ alerts ∧
    alerts.countP Alert.isClosed = old_state.countP
      (fun e => decide (ns.lookup e.1 = none) && decide (0 < e.2.size)) := by
  obtain ⟨la, hl, halerts⟩ := detect_position_changes_ok _ _ _ _ _ h
  have hnone : ns.lookup k = none :=
    detectLoop_lookup_none threshold old_state new_positions [] la ns k hl
      rfl hvanish
  subst halerts
  refine ⟨hnone, ?_, ?_⟩
  · exact List.mem_append.mpr (Or.inr
      (mem_closedPass (Snapshot.mem_of_lookup_eq_some hold) hnone hpos))
  · rw [List.countP_append]
    have h0 : la.countP Alert.isClosed = 0 :=
      List.countP_eq_zero.mpr (fun a ha => by
        simp [detectLoop_alerts_not_closed _ _ _ _ _ _ hl a ha])
    have h1 : (closedPass old_state ns).countP Alert.isClosed =
        (closedPass old_state ns).length :=
      List.countP_eq_length.mpr (fun a ha => by
        simp [closedPass_all_closed old_state ns a ha])
    rw [h0, h1, closedPass_length]
    exact Nat.zero_add _

/-- Witness for C2: one stored position of size 3, fetch returns nothing —
one Closed alert, empty new snapshot. -/
theorem closed_alert_exactly_once_witness :
    Snapshot.lookup [] "c:Yes" = none ∧
    Alert.closed "T" "Yes" 3 ∈ [Alert.closed "T" "Yes" 3] ∧
    [Alert.closed "T" "Yes" 3].countP Alert.isClosed =
      [("c:Yes", (⟨3, none, "T", "Yes"⟩ : PositionRecord))].countP
        (fun e => decide (Snapshot.lookup [] e.1 = none) &&
          decide (0 < e.2.size)) :=
  closed_alert_exactly_once CHANGE_THRESHOLD
    [("c:Yes", ⟨3, none, "T", "Yes"⟩)] [] [Alert.closed "T" "Yes" 3] []
    "c:Yes" ⟨3, none, "T", "Yes"⟩ rfl rfl (by norm_num) (by simp)

/-! ### Claim C4 -/

/-- C4: a fetched nonzero-size position whose key is stored in the old
snapshot and whose change is below the threshold contributes no alert of
any kind this cycle, yet the new snapshot's record for its key carries the
freshly fetched size. -/
theorem noise_suppressed_state_updated (threshold : ℚ) (old_state : Snapshot)
    (new_positions : List RawPosition) (alerts : List Alert) (ns : Snapshot)
    (p : RawPosition) (k : String) (s : ℚ) (oldRec : PositionRecord)
    (h : detect_position_changes threshold old_state new_positions =
      .ok (alerts, ns))
    (hmem : p ∈ new_positions)
    (hkey : keyOf p = some k)
    (hsize : p.size = some s) (hs : s ≠ 0)
    (hold : old_state.lookup k = some oldRec)
    (hinsig : is_significant_change oldRec.size s threshold = false)
    (huniq : ∀ q ∈ new_positions, keyOf q = some k → q = p) :
    ∃ rec, processPosition threshold old_state p = .ok ([], some (k, rec)) ∧
      rec.size = s ∧ ns.lookup k = some rec := by
  obtain ⟨cid, hcid, hk⟩ : ∃ cid, p.conditionId = some cid ∧
      k = cid ++ ":" ++ p.outcome.getD "" := by
    cases hcid : p.conditionId with
    | none => simp [keyOf, hcid] at hkey
    | some cid =>
        simp only [keyOf, hcid, Option.map_some', Option.some.injEq] at hkey
        exact ⟨cid, rfl, hkey.symm⟩
  subst hk
  have hproc := processPosition_insignificant threshold old_state hcid hsize
    hs hold hinsig
  obtain ⟨la, hl, -⟩ := detect_position_changes_ok _ _ _ _ _ h
  exact ⟨_, hproc, rfl, detectLoop_lookup_unique threshold old_state
    new_positions [] la ns p _ _ _ hl hmem hproc huniq⟩

/-- Witness for C4: stored size 5, fetched size 5.005, threshold 0.01 —
no alert, snapshot updated to 5.005. -/
theorem noise_suppressed_state_updated_witness :
    ∃ rec, processPosition CHANGE_THRESHOLD
        [("c:Yes", ⟨5, none, "T", "Yes"⟩)]
        ⟨some "c", some "Yes", some (1001/200), some "T", none, none, none⟩ =
      .ok ([], some ("c:Yes", rec)) ∧
      rec.size = 1001/200 ∧
      Snapshot.lookup [("c:Yes", ⟨1001/200, none, "T", "Yes"⟩)] "c:Yes" =
        some rec := by
  have habs : |(1001 : ℚ)/200 - 5| < 1/100 := by
    rw [show (1001 : ℚ)/200 - 5 = 1/200 by norm_num,
      abs_of_nonneg (by norm_num : (0 : ℚ) ≤ 1/200)]
    norm_num
  have hinsig : is_significant_change (5 : ℚ) (1001/200) CHANGE_THRESHOLD =
      false := by
    unfold is_significant_change CHANGE_THRESHOLD
    rw [if_pos habs]
  have hp : processPosition CHANGE_THRESHOLD
      [("c:Yes", ⟨5, none, "T", "Yes"⟩)]
      ⟨some "c", some "Yes", some (1001/200), some "T", none, none, none⟩ =
      .ok ([], some ("c:Yes", ⟨1001/200, none, "T", "Yes"⟩)) :=
    @processPosition_insignificant CHANGE_THRESHOLD
      [("c:Yes", ⟨5, none, "T", "Yes"⟩)]
      ⟨some "c", some "Yes", some (1001/200), some "T", none, none, none⟩
      "c" (1001/200) ⟨5, none, "T", "Yes"⟩
      rfl rfl (by norm_num) rfl hinsig
  have h : detect_position_changes CHANGE_THRESHOLD
      [("c:Yes", ⟨5, none, "T", "Yes"⟩)]
      [⟨some "c", some "Yes", some (1001/200), some "T", none, none, none⟩] =
      .ok ([], [("c:Yes", ⟨1001/200, none, "T", "Yes"⟩)]) := by
    simp [detect_position_changes, detectLoop, hp, Except.bind, Except.map,
      applyEntry, Snapshot.insert, closedPass, Snapshot.lookup]
  exact noise_suppressed_state_updated CHANGE_THRESHOLD
    [("c:Yes", ⟨5, none, "T", "Yes"⟩)]
    [⟨some "c", some "Yes", some (1001/200), some "T", none, none, none⟩]
    [] [("c:Yes", ⟨1001/200, none, "T", "Yes"⟩)]
    ⟨some "c", some "Yes", some (1001/200), some "T", none, none, none⟩
    "c:Yes" (1001/200) ⟨5, none, "T", "Yes"⟩
    h (by simp) rfl rfl (by norm_num) rfl hinsig
    (by intro q hq _; simpa using hq)

/-! ### Claim C7 -/

/-- C7: a fetched position with positive size whose key is absent from the
old snapshot yields exactly one Opened alert — no significance filter
applies — that alert appears in the returned list, and the new snapshot
gains the record with the fetched size. -/
theorem opened_alert_unfiltered (threshold : ℚ) (old_state : Snapshot)
    (new_positions : List RawPosition) (alerts : List Alert) (ns : Snapshot)
    (p : RawPosition) (k : String) (s : ℚ)
    (h : detect_position_changes threshold old_state new_positions =
      .ok (alerts, ns))
    (hmem : p ∈ new_positions)
    (hkey : keyOf p = some k)
    (hsize : p.size = some s) (hs : 0 < s)
    (hold : old_state.lookup k = none)
    (huniq : ∀ q ∈ new_positions, keyOf q = some k → q = p) :
    ∃ rec,
      processPosition threshold old_state p =
        .ok ([Alert.opened (p.title.getD "") (p.outcome.getD "") s
          p.avgPrice p.curPrice], some (k, rec)) ∧
      rec.size = s ∧
      Alert.opened (p.title.getD "") (p.outcome.getD "") s
        p.avgPrice p.curPrice ∈ alerts ∧
      ns.lookup k = some rec := by
  obtain ⟨cid, hcid, hk⟩ : ∃ cid, p.conditionId = some cid ∧
      k = cid ++ ":" ++ p.outcome.getD "" := by
    cases hcid : p.conditionId with
    | none => simp [keyOf, hcid] at hkey
    | some cid =>
        simp only [keyOf, hcid, Option.map_some', Option.some.injEq] at hkey
        exact ⟨cid, rfl, hkey.symm⟩
  subst hk
  have hproc := processPosition_opened threshold old_state hcid hsize hs hold
  obtain ⟨la, hl, halerts⟩ := detect_position_changes_ok _ _ _ _ _ h
  refine ⟨_, hproc, rfl, ?_, detectLoop_lookup_unique threshold old_state
    new_positions [] la ns p _ _ _ hl hmem hproc huniq⟩
  subst halerts
  exact List.mem_append.mpr (Or.inl
    (detectLoop_alert_mem threshold old_state new_positions [] la ns p _ _
      hl hmem hproc _ (by simp)))

/-- Witness for C7: empty old snapshot, one fetched position of size 5. -/
theorem opened_alert_unfiltered_witness :
    ∃ rec,
      processPosition CHANGE_THRESHOLD []
        ⟨some "c", some "Yes", some 5, some "T", some (1/2), some (3/5),
          none⟩ =
        .ok ([Alert.opened "T" "Yes" 5 (some (1/2)) (some (3/5))],
          some ("c:Yes", rec)) ∧
      rec.size = 5 ∧
      Alert.opened "T" "Yes" 5 (some (1/2)) (some (3/5)) ∈
        [Alert.opened "T" "Yes" 5 (some (1/2)) (some (3/5))] ∧
      Snapshot.lookup [("c:Yes", ⟨5, some (1/2), "T", "Yes"⟩)] "c:Yes" =
        some rec :=
  opened_alert_unfiltered CHANGE_THRESHOLD []
    [⟨some "c", some "Yes", some 5, some "T", some (1/2), some (3/5), none⟩]
    [Alert.opened "T" "Yes" 5 (some (1/2)) (some (3/5))]
    [("c:Yes", ⟨5, some (1/2), "T", "Yes"⟩)]
    ⟨some "c", some "Yes", some 5, some "T", some (1/2), some (3/5), none⟩
    "c:Yes" 5 rfl (by simp) rfl rfl (by norm_num) rfl
    (by intro q hq _; simpa using hq)

/-! ### Claim C10 -/

/-- C10: a fetched position with strictly negative size whose key is stored
with positive old size, and whose change reaches the threshold, matches no
alert branch — no Increased, Decreased or Closed alert — yet its negative
size is written into the new snapshot under that key (so the straggler pass
cannot fire for it either). -/
theorem negative_size_sign_flip_silent (threshold : ℚ) (old_state : Snapshot)
    (new_positions : List RawPosition) (alerts : List Alert) (ns : Snapshot)
    (p : RawPosition) (k : String) (s : ℚ) (oldRec : PositionRecord)
    (h : detect_position_changes threshold old_state new_positions =
      .ok (alerts, ns))
    (hmem : p ∈ new_positions)
    (hkey : keyOf p = some k)
    (hsize : p.size = some s) (hneg : s < 0)
    (hold : old_state.lookup k = some oldRec) (hpos : 0 < oldRec.size)
    (hsig : threshold ≤ |s - oldRec.size|)
    (huniq : ∀ q ∈ new_positions, keyOf q = some k → q = p) :
    ∃ rec, processPosition threshold old_state p = .ok ([], some (k, rec)) ∧
      rec.size = s ∧ rec.size < 0 ∧ ns.lookup k = some rec := by
  obtain ⟨cid, hcid, hk⟩ : ∃ cid, p.conditionId = some cid ∧
      k = cid ++ ":" ++ p.outcome.getD "" := by
    cases hcid : p.conditionId with
    | none => simp [keyOf, hcid] at hkey
    | some cid =>
        simp only [keyOf, hcid, Option.map_some', Option.some.injEq] at hkey
        exact ⟨cid, rfl, hkey.symm⟩
  subst hk
  have htrue : is_significant_change oldRec.size s threshold = true := by
    unfold is_significant_change
    split
    · rename_i hlt; exact absurd hsig (not_le.mpr hlt)
    · rfl
  have hproc := processPosition_sign_flip threshold old_state hcid hsize hneg
    hold hpos htrue
  obtain ⟨la, hl, -⟩ := detect_position_changes_ok _ _ _ _ _ h
  exact ⟨_, hproc, rfl, hneg, detectLoop_lookup_unique threshold old_state
    new_positions [] la ns p _ _ _ hl hmem hproc huniq⟩

/-- Witness for C10: stored size 5, fetched size −3 — a significant change,
zero alerts, −3 stored in the new snapshot. -/
theorem negative_size_sign_flip_silent_witness :
    ∃ rec, processPosition CHANGE_THRESHOLD
        [("c:Yes", ⟨5, none, "T", "Yes"⟩)]
        ⟨some "c", some "Yes", some (-3), some "T", none, none, none⟩ =
      .ok ([], some ("c:Yes", rec)) ∧
      rec.size = -3 ∧ rec.size < 0 ∧
      Snapshot.lookup [("c:Yes", ⟨-3, none, "T", "Yes"⟩)] "c:Yes" =
        some rec := by
  have hsig : CHANGE_THRESHOLD ≤ |(-3 : ℚ) - (5 : ℚ)| := by
    rw [show ((-3 : ℚ) - 5) = -8 by norm_num]
    norm_num [CHANGE_THRESHOLD]
  have htrue : is_significant_change (5 : ℚ) (-3) CHANGE_THRESHOLD =
      true := by
    simp only [is_significant_change]
    rw [if_neg (not_lt.mpr hsig)]
  have hp : processPosition CHANGE_THRESHOLD
      [("c:Yes", ⟨5, none, "T", "Yes"⟩)]
      ⟨some "c", some "Yes", some (-3), some "T", none, none, none⟩ =
      .ok ([], some ("c:Yes", ⟨-3, none, "T", "Yes"⟩)) :=
    @processPosition_sign_flip CHANGE_THRESHOLD
      [("c:Yes", ⟨5, none, "T", "Yes"⟩)]
      ⟨some "c", some "Yes", some (-3), some "T", none, none, none⟩
      "c" (-3) ⟨5, none, "T", "Yes"⟩
      rfl rfl (by norm_num) rfl (by norm_num) htrue
  have h : detect_position_changes CHANGE_THRESHOLD
      [("c:Yes", ⟨5, none, "T", "Yes"⟩)]
      [⟨some "c", some "Yes", some (-3), some "T", none, none, none⟩] =
      .ok ([], [("c:Yes", ⟨-3, none, "T", "Yes"⟩)]) := by
    simp [detect_position_changes, detectLoop, hp, Except.bind, Except.map,
      applyEntry, Snapshot.insert, closedPass, Snapshot.lookup]
  exact negative_size_sign_flip_silent CHANGE_THRESHOLD
    [("c:Yes", ⟨5, none, "T", "Yes"⟩)]
    [⟨some "c", some "Yes", some (-3), some "T", none, none, none⟩]
    [] [("c:Yes", ⟨-3, none, "T", "Yes"⟩)]
    ⟨some "c", some "Yes", some (-3), some "T", none, none, none⟩
    "c:Yes" (-3) ⟨5, none, "T", "Yes"⟩
    h (by simp) rfl rfl (by norm_num) rfl (by norm_num) hsig
    (by intro q hq _; simpa using hq)

/-! ### Claim C1 -/

/-- C1: two fetched positions sharing a `conditionId` but with different
outcome labels get distinct composite keys, each is evaluated against the
old snapshot independently (the same `old_state` in both `processPosition`
calls), and both records appear in the new snapshot — neither overwrites
the other. -/
theorem composite_keys_independent (threshold : ℚ) (old_state : Snapshot)
    (p1 p2 : RawPosition) (cid o1 o2 : String) (s1 s2 : ℚ)
    (hc1 : p1.conditionId = some cid) (hc2 : p2.conditionId = some cid)
    (ho1 : p1.outcome = some o1) (ho2 : p2.outcome = some o2)
    (hne : o1 ≠ o2)
    (hs1 : p1.size = some s1) (hs2 : p2.size = some s2)
    (h1 : s1 ≠ 0) (h2 : s2 ≠ 0) :
    cid ++ ":" ++ o1 ≠ cid ++ ":" ++ o2 ∧
    ∃ a1 a2 r1 r2 ns,
      processPosition threshold old_state p1 =
        .ok (a1, some (cid ++ ":" ++ o1, r1)) ∧
      processPosition threshold old_state p2 =
        .ok (a2, some (cid ++ ":" ++ o2, r2)) ∧
      r1.size = s1 ∧ r2.size = s2 ∧
      detect_position_changes threshold old_state [p1, p2] =
        .ok ((a1 ++ a2) ++ closedPass old_state ns, ns) ∧
      ns.lookup (cid ++ ":" ++ o1) = some r1 ∧
      ns.lookup (cid ++ ":" ++ o2) = some r2 := by
  have hkey : cid ++ ":" ++ o1 ≠ cid ++ ":" ++ o2 := by
    intro hk
    have hd := congrArg String.data hk
    simp [String.data_append] at hd
    exact hne (String.ext hd)
  refine ⟨hkey, ?_⟩
  rcases processPosition_wf threshold old_state hc1 hs1 with
    ⟨hz, -⟩ | ⟨-, a1, hp1⟩
  · exact absurd hz h1
  rcases processPosition_wf threshold old_state hc2 hs2 with
    ⟨hz, -⟩ | ⟨-, a2, hp2⟩
  · exact absurd hz h2
  rw [ho1] at hp1
  rw [ho2] at hp2
  simp only [Option.getD_some] at hp1 hp2
  have hdet : detect_position_changes threshold old_state [p1, p2] =
      .ok ((a1 ++ a2) ++ closedPass old_state
          [(cid ++ ":" ++ o1, ⟨s1, p1.avgPrice, p1.title.getD "", o1⟩),
            (cid ++ ":" ++ o2, ⟨s2, p2.avgPrice, p2.title.getD "", o2⟩)],
        [(cid ++ ":" ++ o1, ⟨s1, p1.avgPrice, p1.title.getD "", o1⟩),
          (cid ++ ":" ++ o2, ⟨s2, p2.avgPrice, p2.title.getD "", o2⟩)]) := by
    simp [detect_position_changes, detectLoop, hp1, hp2, Except.bind,
      Except.map, applyEntry, Snapshot.insert, hkey]
  exact ⟨a1, a2, _, _, _, hp1, hp2, rfl, rfl, hdet,
    by simp [Snapshot.lookup],
    by simp [Snapshot.lookup, hkey]⟩

/-- Witness for C1: market "c" with outcomes "Yes" (size 5) and "No"
(size 7) against an empty old snapshot. -/
theorem composite_keys_independent_witness :
    "c" ++ ":" ++ "Yes" ≠ "c" ++ ":" ++ "No" ∧
    ∃ a1 a2 r1 r2 ns,
      processPosition CHANGE_THRESHOLD []
        ⟨some "c", some "Yes", some 5, some "T", none, none, none⟩ =
        .ok (a1, some ("c" ++ ":" ++ "Yes", r1)) ∧
      processPosition CHANGE_THRESHOLD []
        ⟨some "c", some "No", some 7, some "T", none, none, none⟩ =
        .ok (a2, some ("c" ++ ":" ++ "No", r2)) ∧
      r1.size = 5 ∧ r2.size = 7 ∧
      detect_position_changes CHANGE_THRESHOLD []
        [⟨some "c", some "Yes", some 5, some "T", none, none, none⟩,
          ⟨some "c", some "No", some 7, some "T", none, none, none⟩] =
        .ok ((a1 ++ a2) ++ closedPass [] ns, ns) ∧
      ns.lookup ("c" ++ ":" ++ "Yes") = some r1 ∧
      ns.lookup ("c" ++ ":" ++ "No") = some r2 :=
  composite_keys_independent CHANGE_THRESHOLD []
    ⟨some "c", some "Yes", some 5, some "T", none, none, none⟩
    ⟨some "c", some "No", some 7, some "T", none, none, none⟩
    "c" "Yes" "No" 5 7 rfl rfl rfl rfl (by decide) rfl rfl
    (by norm_num) (by norm_num)

/-! ### Claim C5 -/

/-- Counterexample to C5 as stated: a fetched position with negative size is
written into the new snapshot, so the snapshot can contain an entry with
size ≤ 0 (only exact zeros are filtered). -/
theorem snapshot_positivity_cex :
    detect_position_changes CHANGE_THRESHOLD []
        [⟨some "c", some "No", some (-1), none, none, none, none⟩] =
      .ok ([], [("c:No", ⟨-1, none, "", "No"⟩)]) ∧
    ¬ (∀ e ∈ [("c:No", (⟨-1, none, "", "No"⟩ : PositionRecord))],
        0 < e.2.size) := by
  constructor
  · rfl
  · intro hall
    have := hall ("c:No", ⟨-1, none, "", "No"⟩) (by simp)
    norm_num at this

/-- C5 amended: every entry of the returned snapshot has nonzero size (zero
sizes are filtered both on fetch and from the prior state); strict
positivity holds additionally whenever every fetched size is
non-negative. -/
theorem snapshot_nonzero_invariant (threshold : ℚ) (old_state : Snapshot)
    (new_positions : List RawPosition) (alerts : List Alert) (ns : Snapshot)
    (h : detect_position_changes threshold old_state new_positions =
      .ok (alerts, ns)) :
    (∀ e ∈ ns, e.2.size ≠ 0) ∧
    ((∀ p ∈ new_positions, ∀ s, p.size = some s → 0 ≤ s) →
      ∀ e ∈ ns, 0 < e.2.size) := by
  obtain ⟨la, hl, -⟩ := detect_position_changes_ok _ _ _ _ _ h
  have hmem := detectLoop_ns_mem threshold old_state new_positions [] la ns hl
  constructor
  · intro e he
    rcases hmem e he with h' | ⟨p, -, -, hnz⟩
    · cases h'
    · exact hnz
  · intro hpos e he
    rcases hmem e he with h' | ⟨p, hp, hrec, hnz⟩
    · cases h'
    · obtain ⟨k, r⟩ := e
      obtain ⟨cid, -, hsz, -, -⟩ := recordOf_inversion hrec
      exact lt_of_le_of_ne (hpos p hp r.size hsz) (Ne.symm hnz)

/-- Witness for the amended C5 at a run storing one entry of size 5. -/
theorem snapshot_nonzero_invariant_witness :
    (∀ e ∈ [("c:Yes", (⟨5, some (1/2), "T", "Yes"⟩ : PositionRecord))],
      e.2.size ≠ 0) ∧
    ((∀ p ∈ [(⟨some "c", some "Yes", some 5, some "T", some (1/2),
          some (3/5), none⟩ : RawPosition)], ∀ s, p.size = some s → 0 ≤ s) →
      ∀ e ∈ [("c:Yes", (⟨5, some (1/2), "T", "Yes"⟩ : PositionRecord))],
        0 < e.2.size) :=
  snapshot_nonzero_invariant CHANGE_THRESHOLD []
    [⟨some "c", some "Yes", some 5, some "T", some (1/2), some (3/5), none⟩]
    [Alert.opened "T" "Yes" 5 (some (1/2)) (some (3/5))]
    [("c:Yes", ⟨5, some (1/2), "T", "Yes"⟩)] rfl

/-! ### Claim C6 -/

theorem filterMap_eq_of_map_eq_map_some {α β : Type} (f : α → Option β) :
    ∀ (l1 : List α) (l2 : List β), l1.map f = l2.map some →
      l1.filterMap f = l2 := by
  intro l1
  induction l1 with
  | nil =>
      intro l2 h
      cases l2 with
      | nil => rfl
      | cons b l2 => simp at h
  | cons a l1 ih =>
      intro l2 h
      cases l2 with
      | nil => simp at h
      | cons b l2 =>
          simp only [List.map_cons, List.cons.injEq] at h
          obtain ⟨hab, hrest⟩ := h
          simp [List.filterMap_cons, hab, ih l2 hrest]

/-- With duplicate-free keys every entry is found by lookup. -/
theorem Snapshot.lookup_of_mem_nodup {s : Snapshot}
    (hnodup : (s.map Prod.fst).Nodup) :
    ∀ e ∈ s, s.lookup e.1 = some e.2 := by
  induction s with
  | nil => intro e he; cases he
  | cons e' rest ih =>
      intro e he
      obtain ⟨k', r'⟩ := e'
      rcases List.mem_cons.mp he with rfl | he'
      · simp [Snapshot.lookup]
      · have hk : k' ∉ rest.map Prod.fst :=
          (List.nodup_cons.mp (by simpa using hnodup)).1
        have h1 : ¬ k' = e.1 := by
          intro heq
          exact hk (heq ▸ List.mem_map_of_mem Prod.fst he')
        simp only [Snapshot.lookup, if_neg h1]
        exact ih (List.nodup_cons.mp (by simpa using hnodup)).2 e he'

theorem closedPass_eq_nil (old_state new_state : Snapshot)
    (h : ∀ e ∈ old_state, new_state.lookup e.1 = none → ¬ 0 < e.2.size) :
    closedPass old_state new_state = [] := by
  rw [closedPass, List.filterMap_eq_nil_iff]
  intro e he
  by_cases h1 : new_state.lookup e.1 = none
  · simp [h1, h e he h1]
  · simp [h1]

/-- A fetch that reproduces the old snapshot exactly, entry by entry, makes
the first pass emit nothing and rebuild the nonzero entries in order. -/
theorem detectLoop_no_change (threshold : ℚ) (hth : 0 < threshold)
    (old_state : Snapshot) :
    ∀ (ps : List RawPosition) (old₂ : List (String × PositionRecord))
      (st : Snapshot),
      ps.map recordOf = old₂.map some →
      (∀ e ∈ old₂, old_state.lookup e.1 = some e.2) →
      (∀ e ∈ old₂, st.lookup e.1 = none) →
      (old₂.map Prod.fst).Nodup →
      detectLoop threshold old_state ps st =
        .ok ([], st ++ old₂.filter (fun e => !decide (e.2.size = 0))) := by
  intro ps
  induction ps with
  | nil =>
      intro old₂ st hmap hold hst hnodup
      cases old₂ with
      | nil => simp [detectLoop]
      | cons e l => simp at hmap
  | cons p ps ih =>
      intro old₂ st hmap hold hst hnodup
      cases old₂ with
      | nil => simp at hmap
      | cons e old₂' =>
          obtain ⟨k, r⟩ := e
          simp only [List.map_cons, List.cons.injEq] at hmap
          obtain ⟨hrec, hmap'⟩ := hmap
          obtain ⟨cid, hcid, hsz, hk, hr⟩ := recordOf_inversion hrec
          have hnd : k ∉ old₂'.map Prod.fst ∧ (old₂'.map Prod.fst).Nodup := by
            rw [List.map_cons, List.nodup_cons] at hnodup
            exact hnodup
          by_cases hzero : r.size = 0
          · have hp : processPosition threshold old_state p = .ok ([], none) :=
              processPosition_zero threshold old_state hcid
                (by rw [hsz, hzero])
            have hrest := ih old₂' st hmap'
              (fun e he => hold e (List.mem_cons_of_mem _ he))
              (fun e he => hst e (List.mem_cons_of_mem _ he)) hnd.2
            simp [detectLoop, hp, Except.bind, Except.map, applyEntry,
              hrest, List.filter_cons, hzero]
          · have holdk : old_state.lookup k = some r :=
              hold (k, r) (List.mem_cons_self _ _)
            have hinsig : is_significant_change r.size r.size threshold =
                false := by
              unfold is_significant_change
              rw [sub_self, abs_zero, if_pos hth]
            have hp : processPosition threshold old_state p =
                .ok ([], some (k, r)) := by
              rw [hk] at holdk ⊢
              rw [hr]
              exact @processPosition_insignificant threshold old_state p cid
                r.size r hcid hsz hzero holdk hinsig
            have hstk : st.lookup k = none := hst (k, r) (List.mem_cons_self _ _)
            have hne : ∀ e' ∈ old₂', e'.1 ≠ k := by
              intro e' he' heq
              exact hnd.1 (heq ▸ List.mem_map_of_mem Prod.fst he')
            have hrest := ih old₂' (st.insert k r) hmap'
              (fun e he => hold e (List.mem_cons_of_mem _ he))
              (fun e he => by
                rw [Snapshot.lookup_insert_ne st r (hne e he)]
                exact hst e (List.mem_cons_of_mem _ he)) hnd.2
            rw [Snapshot.insert_eq_append r hstk] at hrest
            simp [detectLoop, hp, Except.bind, Except.map, applyEntry,
              Snapshot.insert_eq_append r hstk, hrest, List.filter_cons,
              hzero]

/-- C6: when the fetched list reproduces exactly the stored snapshot (same
keys, same records) and the threshold is positive, the run emits zero
alerts and the new snapshot is the fetched positions' records minus the
zero-size entries. -/
theorem no_change_idempotent (threshold : ℚ) (old_state : Snapshot)
    (new_positions : List RawPosition)
    (hth : 0 < threshold)
    (hmatch : new_positions.map recordOf = old_state.map some)
    (hnodup : (old_state.map Prod.fst).Nodup) :
    detect_position_changes threshold old_state new_positions =
      .ok ([], (new_positions.filterMap recordOf).filter
        (fun e => !decide (e.2.size = 0))) := by
  have hfm : new_positions.filterMap recordOf = old_state :=
    filterMap_eq_of_map_eq_map_some recordOf _ _ hmatch
  rw [hfm]
  have hloop := detectLoop_no_change threshold hth old_state new_positions
    old_state [] hmatch (Snapshot.lookup_of_mem_nodup hnodup)
    (fun e _ => rfl) hnodup
  have hclosed : closedPass old_state
      (old_state.filter (fun e => !decide (e.2.size = 0))) = [] := by
    apply closedPass_eq_nil
    intro e he hnone hpos
    have hmem : e ∈ old_state.filter (fun e => !decide (e.2.size = 0)) :=
      List.mem_filter.mpr ⟨he, by simp [hpos.ne']⟩
    exact (Snapshot.lookup_eq_none_iff _ _).mp hnone e hmem rfl
  simp [detect_position_changes, hloop, hclosed]

/-- Witness for C6: one stored position, refetched identically. -/
theorem no_change_idempotent_witness :
    detect_position_changes CHANGE_THRESHOLD
      [("c:Yes", ⟨5, none, "T", "Yes"⟩)]
      [⟨some "c", some "Yes", some 5, some "T", none, none, none⟩] =
      .ok ([], ([(⟨some "c", some "Yes", some 5, some "T", none, none,
          none⟩ : RawPosition)].filterMap recordOf).filter
        (fun e => !decide (e.2.size = 0))) :=
  no_change_idempotent CHANGE_THRESHOLD
    [("c:Yes", ⟨5, none, "T", "Yes"⟩)]
    [⟨some "c", some "Yes", some 5, some "T", none, none, none⟩]
    (by norm_num [CHANGE_THRESHOLD]) rfl (by simp)
